import Mathlib

/-!
Verification of the query-understanding and retrieval-filtering pipeline of
`src/backend/main.py` (an SHL assessment recommendation service).

The Python source is shallowly embedded below.  Strings are modelled as Lean
`String` / `List Char` (Python `str.lower`/`str.upper`/`\w`/`\d`/`\s` are
modelled on the ASCII range, which covers every string the program's fixed
vocabularies and the specification use).  Python floats are modelled as exact
rationals `ℚ`; IEEE special values (`nan`, `inf`) and PEP-515 underscore digit
groups are outside the model and are treated as parse failures.  Fallible
Python code is embedded in `Except String`, where `Except.error` marks an
uncaught Python exception.  External capabilities (the Chroma vector store,
the web scraper, the Gemini text generator) are passed as explicit function
parameters.
-/

/-! ## Basic character and string utilities -/

/-- The apostrophe character (`'`). -/
def squote : Char := Char.ofNat 39

/-- The double-quote character (`"`). -/
def dquote : Char := Char.ofNat 34

/-- Python `\s` on the ASCII range: space, tab, newline, CR, VT, FF. -/
def isPySpace (c : Char) : Bool :=
  c = ' ' || c = '\t' || c = '\n' || c = '\r' || c = Char.ofNat 11 || c = Char.ofNat 12

/-- Python regex `\w` on the ASCII range: letters, digits, underscore. -/
def isWordChar (c : Char) : Bool :=
  c.isAlphanum || c = '_'

/-- Python `str.lower()` on the ASCII range, as a character list. -/
def lowerChars (s : String) : List Char :=
  s.data.map Char.toLower

/-- Python `str.upper()` on the ASCII range. -/
def upperStr (s : String) : String :=
  ⟨s.data.map Char.toUpper⟩

/-- Numeric value of a run of ASCII digits (Python `int` of the matched group). -/
def digitsToNat (cs : List Char) : Nat :=
  cs.foldl (fun a c => a * 10 + (c.toNat - 48)) 0

/-- Does `pat` occur as a contiguous substring of `s` (Python `in` on strings)? -/
def hasInfix (pat : List Char) : List Char → Bool
  | [] => pat.isEmpty
  | c :: rest => pat.isPrefixOf (c :: rest) || hasInfix pat rest

/-- A word-bounded match of `pat` at the head of `s`, where `prev` is the
character just before this position (`none` at the start of the string).
Models Python `re.search(r'\b<literal>\b', s)` succeeding at this position,
for literals that begin and end with word characters. -/
def boundedHere (pat s : List Char) (prev : Option Char) : Bool :=
  pat.isPrefixOf s &&
  (match prev with
   | Option.none => true
   | some c => !isWordChar c) &&
  (match s.drop pat.length with
   | [] => true
   | c :: _ => !isWordChar c)

/-- Scan every position of `s` for a word-bounded occurrence of `pat`. -/
def wordSearchAux (pat : List Char) (prev : Option Char) : List Char → Bool
  | [] => false
  | c :: rest => boundedHere pat (c :: rest) prev || wordSearchAux pat (some c) rest

/-- Python `re.search(r'\b' + re.escape(pat) + r'\b', s)` as a Boolean, for the
fixed literal phrases the program uses (all begin and end with word
characters). -/
def wordSearch (pat : String) (s : List Char) : Bool :=
  wordSearchAux pat.data Option.none s

/-- Python `re.search(r'(\d+)\s*' + lit, s)`, returning the numeric value of
group 1.  At each position: a maximal ASCII digit run, then optional
whitespace, then the literal `lit`.  (Backtracking the greedy `\d+`/`\s*`
cannot help for these patterns, since a shorter digit run is followed by a
digit and a shorter space run by a space, so the simple scan is exact.) -/
def scanNumThen (lit : List Char) : List Char → Option Nat
  | [] => Option.none
  | c :: rest =>
    if c.isDigit then
      let run := (c :: rest).takeWhile Char.isDigit
      let after := ((c :: rest).dropWhile Char.isDigit).dropWhile isPySpace
      if lit.isPrefixOf after then some (digitsToNat run) else scanNumThen lit rest
    else scanNumThen lit rest

/-- Like `scanNumThen`, but returning the whole matched text (regex group 0):
the digit run, the consumed whitespace, and the literal. -/
def scanNumThenMatch (lit : List Char) : List Char → Option (List Char)
  | [] => Option.none
  | c :: rest =>
    if c.isDigit then
      let run := (c :: rest).takeWhile Char.isDigit
      let afterRun := (c :: rest).dropWhile Char.isDigit
      let ws := afterRun.takeWhile isPySpace
      let after := afterRun.dropWhile isPySpace
      if lit.isPrefixOf after then some (run ++ ws ++ lit) else scanNumThenMatch lit rest
    else scanNumThenMatch lit rest

/-! ## The Query Filter Compiler (`extract_filters_from_query`) -/

/-- A scalar value in a ChromaDB filter condition or document-metadata
mapping: Boolean or string (the compiler only emits these two). -/
inductive PyV where
  | b : Bool → PyV
  | s : String → PyV
  deriving DecidableEq

/-- One `{field: value}` condition appended by `extract_filters_from_query`. -/
abbrev Condition := String × PyV

/-- The shape of the Python value returned by `extract_filters_from_query`:
`None`, a plain dictionary of field equalities (a multi-entry dictionary is a
conjunction in ChromaDB), or an operator dictionary `{op: [dict, ...]}` such
as `{"$or": [...]}` / `{"$and": [...]}`. -/
inductive ChromaFilter where
  | noFilter : ChromaFilter
  | dict : List Condition → ChromaFilter
  | opDict : String → List (List Condition) → ChromaFilter
  deriving DecidableEq

/-- The fixed job-level phrase list of `extract_filters_from_query`. -/
def compilerJobLevels : List String :=
  ["analyst", "director", "entry-level", "executive", "front line manager",
   "general population", "graduate", "manager", "mid-professional",
   "professional individual contributor", "supervisor"]

/-- The fixed language-name list of `extract_filters_from_query`. -/
def compilerLanguages : List String :=
  ["arabic", "chinese simplified", "chinese traditional", "czech", "danish",
   "dutch", "english", "estonian", "finnish", "flemish", "french", "german",
   "greek", "hungarian", "icelandic", "indonesian", "italian", "japanese",
   "korean", "latvian", "lithuanian", "malay", "norwegian", "polish",
   "portuguese", "romanian", "russian", "serbian", "slovak", "spanish",
   "swedish", "thai", "turkish", "vietnamese"]

/-- Python `x.replace(' ', '_').replace('-', '_')`, the key-normalization used
for job levels (and for languages in the filter compiler). -/
def normKey (s : String) : String :=
  ⟨s.data.map (fun c => if c = ' ' then '_' else if c = '-' then '_' else c)⟩

/-- The metadata key for a job level, shared verbatim by the Document Builder
and the Query Filter Compiler (`"job_level_" + level.replace(...)`). -/
def jobLevelKey (lv : String) : String :=
  "job_level_" ++ normKey lv

/-- The filter compiler's language key: `"language_" + lang.replace(' ', '_').replace('-', '_')`. -/
def langKeyCompiler (lg : String) : String :=
  "language_" ++ normKey lg

/-- Job-level conditions: one `job_level_<normalized>=True` per word-bounded
phrase match, in list order. -/
def jobLevelConds (ql : List Char) : List Condition :=
  compilerJobLevels.filterMap fun lv =>
    if wordSearch lv ql then some (jobLevelKey lv, PyV.b true) else Option.none

/-- Category-keyword conditions, in source order: cognitive, personality,
technical, soft skill.  Each regex is an alternation of word-bounded
literals. -/
def categoryConds (ql : List Char) : List Condition :=
  (if wordSearch "cognitive" ql || wordSearch "ability" ql || wordSearch "aptitude" ql then
    [("contains_cognitive", PyV.b true)] else []) ++
  (if wordSearch "personality" ql || wordSearch "behavior" ql || wordSearch "behaviour" ql then
    [("contains_personality", PyV.b true)] else []) ++
  (if wordSearch "technical" ql || wordSearch "knowledge" ql || wordSearch "skill" ql then
    [("contains_technical", PyV.b true)] else []) ++
  (if wordSearch "soft skill" ql || wordSearch "competenc" ql || wordSearch "situational" ql
      || wordSearch "judgment" ql then
    [("contains_soft_skill", PyV.b true)] else [])

/-- Duration conditions from `re.search(r'(\d+)\s*(min|mins|minutes)', query)`:
the alternation `(min|mins|minutes)` matches exactly when the literal `min`
follows, so the scan uses `"min"`. -/
def durationConds (ql : List Char) : List Condition :=
  match scanNumThen "min".data ql with
  | Option.none => []
  | some minutes =>
    if minutes ≤ 15 then [("duration_range", PyV.s "very_short")]
    else if minutes ≤ 30 then [("duration_range", PyV.s "short")]
    else if minutes ≤ 45 then [("duration_under_45", PyV.b true)]
    else if minutes ≤ 60 then [("duration_under_60", PyV.b true)]
    else []

/-- Language conditions: one `language_<normalized>=True` per word-bounded
language-name match, in list order. -/
def languageConds (ql : List Char) : List Condition :=
  compilerLanguages.filterMap fun lg =>
    if wordSearch lg ql then some (langKeyCompiler lg, PyV.b true) else Option.none

/-- Substring-triggered feature conditions: `"remote" in query` and
`"adaptive" in query`. -/
def featureConds (ql : List Char) : List Condition :=
  (if hasInfix "remote".data ql then [("remote_testing", PyV.b true)] else []) ++
  (if hasInfix "adaptive".data ql then [("adaptive_irt", PyV.b true)] else [])

/-- The full `filter_conditions` list built by `extract_filters_from_query`,
in the source's append order (job levels, categories, duration, languages,
remote/adaptive), all matched against the lower-cased query. -/
def filter_conditions (query : String) : List Condition :=
  let ql := lowerChars query
  jobLevelConds ql ++ categoryConds ql ++ durationConds ql ++ languageConds ql ++ featureConds ql

/-- `extract_filters_from_query`: `None` when no condition matched, the single
condition's dictionary when one matched, and `{"$or": [...]}` (a list of
single-entry dictionaries) otherwise. -/
def extract_filters_from_query (query : String) : ChromaFilter :=
  match filter_conditions query with
  | [] => ChromaFilter.noFilter
  | [c] => ChromaFilter.dict [c]
  | cs => ChromaFilter.opDict "$or" (cs.map fun c => [c])

/-! ## Duration parsing (`get_duration_range` and the metadata coercion) -/

/-- A raw `duration` cell value: a number (int/float), a string, or a missing
value (`None`).  IEEE special float values are not modelled. -/
inductive RawDur where
  | num : ℚ → RawDur
  | str : String → RawDur
  | null : RawDur
  deriving DecidableEq

/-- Value of an ASCII digit run together with its length, as a helper for
decimal parsing: `digitsToNat`. -/
def fracValue (cs : List Char) : ℚ :=
  (digitsToNat cs : ℚ) / ((10 : ℚ) ^ cs.length)

/-- Python `float(s)` on a string, restricted to finite decimal literals:
optional surrounding whitespace, optional sign, `digits`, `digits.digits?`
or `.digits`, with an optional `e`/`E` exponent.  `inf`/`nan` and PEP-515
underscore separators are treated as parse failures (they are outside the
rational model; no vocabulary or specification string uses them). -/
def parseFloat (cs0 : List Char) : Option ℚ :=
  let cs1 := (cs0.dropWhile isPySpace).reverse.dropWhile isPySpace |>.reverse
  let (sign, cs2) : ℚ × List Char :=
    match cs1 with
    | '-' :: rest => (-1, rest)
    | '+' :: rest => (1, rest)
    | rest => (1, rest)
  let ipart := cs2.takeWhile Char.isDigit
  let afterI := cs2.dropWhile Char.isDigit
  let (fpart, afterF, hasPoint) : List Char × List Char × Bool :=
    match afterI with
    | '.' :: rest => (rest.takeWhile Char.isDigit, rest.dropWhile Char.isDigit, true)
    | rest => ([], rest, false)
  if ipart.isEmpty && fpart.isEmpty then Option.none
  else if hasPoint = false && ipart.isEmpty then Option.none
  else
    let mantissa : ℚ := sign * ((digitsToNat ipart : ℚ) + fracValue fpart)
    match afterF with
    | [] => some mantissa
    | e :: rest =>
      if e = 'e' || e = 'E' then
        let (esign, rest2) : ℤ × List Char :=
          match rest with
          | '-' :: r => (-1, r)
          | '+' :: r => (1, r)
          | r => (1, r)
        let edigits := rest2.takeWhile Char.isDigit
        if edigits.isEmpty || (rest2.dropWhile Char.isDigit).isEmpty = false then Option.none
        else some (mantissa * (10 : ℚ) ^ (esign * (digitsToNat edigits : ℤ)))
      else Option.none

/-- Python `float(x)` on a raw duration value: numbers pass through, strings
are parsed, `float(None)` raises (`Option.none` marks the
`ValueError`/`TypeError` caught by `get_duration_range`). -/
def pyFloat : RawDur → Option ℚ
  | RawDur.num q => some q
  | RawDur.str s => parseFloat s.data
  | RawDur.null => Option.none

/-- `get_duration_range`: bucket a duration into a range tag, with `"unknown"`
when `float(duration)` raises. -/
def get_duration_range (duration : RawDur) : String :=
  match pyFloat duration with
  | Option.none => "unknown"
  | some d =>
    if d ≤ 15 then "very_short"
    else if d ≤ 30 then "short"
    else if d ≤ 45 then "medium"
    else if d ≤ 60 then "standard"
    else "long"

/-- Remove the first occurrence of a character (Python
`s.replace('.', '', 1)`). -/
def removeFirst (a : Char) : List Char → List Char
  | [] => []
  | c :: rest => if c = a then rest else c :: removeFirst a rest

/-- Python `s.replace('.', '', 1).isdigit()` on the ASCII range: after removing
one dot, the string is non-empty and all digits.  (Unicode digit characters
that `float()` rejects, e.g. superscripts, are outside the ASCII model.) -/
def replaceDotIsdigit (s : String) : Bool :=
  let cs := removeFirst '.' s.data
  !cs.isEmpty && cs.all Char.isDigit

/-- The metadata `duration` value:
`float(duration) if isinstance(duration, (int, float)) or (isinstance(duration, str) and duration.replace('.', '', 1).isdigit()) else 0.0`.
Every string accepted by the isdigit check is a finite decimal literal, so
`parseFloat` succeeds on it; `getD 0` is unreachable there. -/
def coercedDuration : RawDur → ℚ
  | RawDur.num q => q
  | RawDur.str s => if replaceDotIsdigit s then (parseFloat s.data).getD 0 else 0
  | RawDur.null => 0

/-! ## The Document Builder (`prepare_documents`) -/

/-- One catalog row after `clean_list_field` has run over the list columns
(the builder's `isinstance(..., list)` guards are identities then, and all
test-type entries are strings). -/
structure Row where
  name : String
  url : String
  description : String
  duration : RawDur
  remote_testing : Bool
  adaptive_irt : Bool
  job_levels : List String
  languages : List String
  test_type : List String
  deriving DecidableEq

/-- A metadata value: string, number, or Boolean (the only scalar types the
builder emits). -/
inductive MetaVal where
  | s : String → MetaVal
  | q : ℚ → MetaVal
  | b : Bool → MetaVal
  deriving DecidableEq

/-- A langchain `Document`: page content plus a flat metadata mapping
(an insertion-ordered association list with pairwise-distinct keys as built
by the Python dict). -/
structure Doc where
  page_content : String
  metadata : List (String × MetaVal)
  deriving DecidableEq

/-- Dictionary lookup on a document's metadata. -/
def metaGet (doc : Doc) (k : String) : Option MetaVal :=
  (doc.metadata.find? fun e => e.1 = k).map fun e => e.2

/-- The fixed `test_type_mapping` of `prepare_documents`, as the if-chain a
dict lookup performs. -/
def catOf (code : String) : Option String :=
  if code = "A" then some "Ability & Aptitude"
  else if code = "B" then some "Biodata & Situational Judgment"
  else if code = "C" then some "Competencies"
  else if code = "D" then some "Development and 360"
  else if code = "E" then some "Assessment Exercises"
  else if code = "K" then some "Knowledge & Skills"
  else if code = "P" then some "Personality & Behavior"
  else if code = "S" then some "Simulation"
  else Option.none

/-- The fixed test-type code alphabet, in the mapping's insertion order. -/
def testTypeCodes : List String := ["A", "B", "C", "D", "E", "K", "P", "S"]

/-- `test_type_categories`: the mapped category names of the row's known
test-type codes, upper-cased, unknown codes skipped. -/
def test_type_categories (tts : List String) : List String :=
  tts.filterMap fun tt => catOf (upperStr tt)

/-- The Document Builder's language key:
`"language_" + lang.replace(' ', '_').replace('-', '_').replace('#', 'sharp').replace('+', 'plus')`.
(The sequential replaces compose to one pass, since `_`, `sharp` and `plus`
contain none of the later patterns.) -/
def langKeyBuilder (lg : String) : String :=
  "language_" ++
    ⟨((normKey lg).data.flatMap fun c =>
        if c = '#' then "sharp".data else if c = '+' then "plus".data else [c])⟩

/-- The corpus-wide job-level vocabulary: all values, case-folded.  The Python
source collects them into a `set`; the model keeps one occurrence of each in
a canonical order, which is interchangeable for every membership or key-set
fact. -/
def allJobLevels (df : List Row) : List String :=
  ((df.flatMap fun row => row.job_levels).map fun lv => (⟨lowerChars lv⟩ : String)).dedup

/-- The corpus-wide language vocabulary, case-folded. -/
def allLanguages (df : List Row) : List String :=
  ((df.flatMap fun row => row.languages).map fun lg => (⟨lowerChars lg⟩ : String)).dedup

/-- Python `' and '.join(xs) if xs else dflt` and the other join-or-default
content pieces. -/
def joinSep (sep : String) : List String → String
  | [] => ""
  | [x] => x
  | x :: y :: xs => x ++ sep ++ joinSep sep (y :: xs)

/-- Join with a default for the empty case. -/
def joinOr (sep dflt : String) (xs : List String) : String :=
  if xs.isEmpty then dflt else joinSep sep xs

/-- Textual rendering of a raw duration inside the page content (abstraction
of Python str-formatting of the cell value; no claim depends on this text). -/
def rawDurText : RawDur → String
  | RawDur.num q => toString q
  | RawDur.str s => s
  | RawDur.null => "nan"

/-- The `page_content` string composed by `prepare_documents`. -/
def pageContent (row : Row) : String :=
  let test_type_descriptions := row.test_type.map fun tt =>
    upperStr tt ++ ": " ++ (catOf (upperStr tt)).getD ("Unknown (" ++ upperStr tt ++ ")")
  row.name ++ ": A " ++ joinOr " and " "various job levels" row.job_levels ++
  " position in " ++ joinOr " and " "multiple languages" row.languages ++
  ". Job Description: " ++ row.description ++
  " Test Types: " ++ joinOr ", " "various assessments" row.test_type ++
  " Detailed Test Types: " ++ joinOr ", " "No test types specified" test_type_descriptions ++
  " Duration: " ++ rawDurText row.duration ++ " minutes" ++
  " Remote Testing: " ++ (if row.remote_testing then "Available" else "Not available") ++
  " Adaptive Testing: " ++ (if row.adaptive_irt then "Yes" else "No")

/-- The seven initial metadata entries plus `duration_range`, in insertion
order. -/
def baseMeta (row : Row) : List (String × MetaVal) :=
  [("name", MetaVal.s row.name),
   ("url", MetaVal.s row.url),
   ("description", MetaVal.s row.description),
   ("duration", MetaVal.q (coercedDuration row.duration)),
   ("remote_testing", MetaVal.b row.remote_testing),
   ("adaptive_irt", MetaVal.b row.adaptive_irt),
   ("search_keywords",
     MetaVal.s ⟨lowerChars (joinSep " "
       ([row.name, row.description] ++ row.job_levels ++ row.languages ++ row.test_type))⟩),
   ("duration_range", MetaVal.s (get_duration_range row.duration))]

/-- One Boolean flag per vocabulary job level:
true iff the row contains it case-insensitively. -/
def jlFlags (jls : List String) (row : Row) : List (String × MetaVal) :=
  jls.map fun lv =>
    (jobLevelKey lv, MetaVal.b (row.job_levels.any fun jl => (⟨lowerChars jl⟩ : String) = lv))

/-- One Boolean flag per vocabulary language. -/
def langFlags (langs : List String) (row : Row) : List (String × MetaVal) :=
  langs.map fun lg =>
    (langKeyBuilder lg, MetaVal.b (row.languages.any fun l => (⟨lowerChars l⟩ : String) = lg))

/-- One Boolean flag per fixed test-type code:
`code in [tt.upper() for tt in test_types]`. -/
def ttFlags (row : Row) : List (String × MetaVal) :=
  testTypeCodes.map fun code =>
    ("test_type_" ++ code, MetaVal.b ((row.test_type.map upperStr).contains code))

/-- The four category aggregates, computed from the mapped category names as
in the source. -/
def catFlags (row : Row) : List (String × MetaVal) :=
  let cats := test_type_categories row.test_type
  [("contains_cognitive",
     MetaVal.b (cats.any fun cat => cat = "Ability & Aptitude" || cat = "Knowledge & Skills")),
   ("contains_personality",
     MetaVal.b (cats.any fun cat => cat = "Personality & Behavior")),
   ("contains_technical",
     MetaVal.b (cats.any fun cat => cat = "Knowledge & Skills" || cat = "Simulation")),
   ("contains_soft_skill",
     MetaVal.b (cats.any fun cat =>
       cat = "Competencies" || cat = "Biodata & Situational Judgment"
         || cat = "Personality & Behavior"))]

/-- The three duration-threshold flags, computed from the coerced metadata
duration. -/
def durFlags (row : Row) : List (String × MetaVal) :=
  [("duration_under_30", MetaVal.b (coercedDuration row.duration ≤ 30)),
   ("duration_under_45", MetaVal.b (coercedDuration row.duration ≤ 45)),
   ("duration_under_60", MetaVal.b (coercedDuration row.duration ≤ 60))]

/-- Build one `Document` from a row, given the corpus vocabularies.
Metadata entries appear in the source's dict-insertion order. -/
def buildDoc (jls langs : List String) (row : Row) : Doc :=
  ⟨pageContent row,
   baseMeta row ++ (jlFlags jls row ++ (langFlags langs row ++ (ttFlags row
     ++ (catFlags row ++ durFlags row))))⟩

/-- `prepare_documents`: a first pass computes the corpus vocabularies, then
every row is turned into a document against them. -/
def prepare_documents (df : List Row) : List Doc :=
  df.map (buildDoc (allJobLevels df) (allLanguages df))

/-- The key list of a document's metadata mapping. -/
def metaKeys (doc : Doc) : List String :=
  doc.metadata.map fun e => e.1

/-! ## The Retrieval Orchestrator (`search_assessments`) -/

/-- Python truthiness of an optional metadata value (`if duration and ...`):
`None`, `0.0`, `False` and `""` are falsy. -/
def durTruthy : Option MetaVal → Bool
  | Option.none => false
  | some (MetaVal.q d) => d ≠ 0
  | some (MetaVal.b b) => b
  | some (MetaVal.s s) => !s.data.isEmpty

/-- `float(duration)` on a metadata value; `Option.none` marks the
`ValueError` a truthy non-numeric string would raise.  The Document Builder
only ever stores numeric durations, and every theorem about the post-filter
restricts to numeric-or-missing durations, where this model is exact. -/
def durFloat : Option MetaVal → Option ℚ
  | Option.none => Option.none
  | some (MetaVal.q d) => some d
  | some (MetaVal.b b) => some (if b then 1 else 0)
  | some (MetaVal.s s) => parseFloat s.data

/-- The per-document test of the numeric post-filter:
`if duration and float(duration) <= max_duration`. -/
def keepByDuration (m : Nat) (doc : Doc) : Bool :=
  durTruthy (metaGet doc "duration") && (durFloat (metaGet doc "duration")).getD 0 ≤ (m : ℚ)

/-- A document whose duration metadata is numeric or absent (the only shapes
`prepare_documents` can put in a store). -/
def numericDur (doc : Doc) : Bool :=
  match metaGet doc "duration" with
  | Option.none => true
  | some (MetaVal.q _) => true
  | some _ => false

/-- The tail of `search_assessments`: extract `(\d+)\s*minutes` from the
lower-cased query; when the extracted `max_duration` is truthy (an `int`
other than `0`), keep the documents whose duration metadata is truthy and
`<= max_duration`, falling back to the first 3 pre-filter results when that
empties the list. -/
def durationPostFilter (query : String) (filtered_results : List Doc) : List Doc :=
  match scanNumThen "minutes".data (lowerChars query) with
  | Option.none => filtered_results
  | some m =>
    if m = 0 then filtered_results
    else
      let duration_filtered := filtered_results.filter (keepByDuration m)
      if duration_filtered.isEmpty then filtered_results.take 3 else duration_filtered

/-- `search_assessments`, with the Chroma similarity search as an explicit
capability `store` (invoked with the compiled filter; `noFilter` selects the
unfiltered `similarity_search` call; both cap at `k = 5` inside the store).
An `Except.error` is an exception escaping the vector-store call. -/
def search_assessments (query : String)
    (store : String → ChromaFilter → Except String (List Doc)) :
    Except String (List Doc) := do
  let filtered_results ← store query (extract_filters_from_query query)
  pure (durationPostFilter query filtered_results)

/-! ## The `/search` endpoint -/

/-- The `AssessmentResult` response model. -/
structure AssessRes where
  name : String
  url : String
  description : String
  duration : ℚ
  test_types : List String
  deriving DecidableEq

/-- The `SearchResponse` response model. -/
structure SearchResp where
  search_query : String
  original_query : String
  is_url : Bool
  job_description_url : Option String
  results : List AssessRes
  deriving DecidableEq

/-- `re.search(r'https?://[^\s]+', query)`: the first maximal non-space run
starting with an `http://` or `https://` scheme and extending at least one
character past it. -/
def scanUrl : List Char → Option String
  | [] => Option.none
  | c :: rest =>
    let here := c :: rest
    if "https://".data.isPrefixOf here || "http://".data.isPrefixOf here then
      some ⟨here.takeWhile fun ch => !isPySpace ch⟩
    else scanUrl rest

/-- `extract_url_from_query`. -/
def extract_url_from_query (query : String) : Option String :=
  scanUrl query.data

/-- `str(metadata.get(key, 'N/A'))` for the string fields of the response
(the builder always stores strings under `name` and `url`). -/
def strOfMeta (v : Option MetaVal) (dflt : String) : String :=
  match v with
  | some (MetaVal.s s) => s
  | _ => dflt

/-- `float(metadata.get('duration', 0))`; a non-numeric string raises. -/
def floatOfMetaD0 : Option MetaVal → Except String ℚ
  | Option.none => Except.ok 0
  | some (MetaVal.q d) => Except.ok d
  | some (MetaVal.b b) => Except.ok (if b then 1 else 0)
  | some (MetaVal.s s) =>
    match parseFloat s.data with
    | some d => Except.ok d
    | Option.none => Except.error "ValueError: could not convert string to float"

/-- Python `t.replace('test_type_', '')`: delete every occurrence of the
pattern, scanning left to right. -/
def deleteAllSub (pat : List Char) : List Char → List Char
  | [] => []
  | c :: rest =>
    if pat.isPrefixOf (c :: rest) && !pat.isEmpty then
      deleteAllSub pat (rest.drop (pat.length - 1))
    else c :: deleteAllSub pat rest
termination_by cs => cs.length
decreasing_by
  · simp only [List.length_drop, List.length_cons]
    omega
  · simp

/-- The `test_types` list of a response entry: truthy `test_type_*` metadata
keys, prefix stripped, in dict order. -/
def testTypesOf (doc : Doc) : List String :=
  doc.metadata.filterMap fun e =>
    if "test_type_".data.isPrefixOf e.1.data && durTruthy (some e.2) then
      some ⟨deleteAllSub "test_type_".data e.1.data⟩
    else Option.none

/-- Format one retrieved document as an `AssessmentResult`. -/
def formatOne (doc : Doc) : Except String AssessRes := do
  let d ← floatOfMetaD0 (metaGet doc "duration")
  pure ⟨strOfMeta (metaGet doc "name") "N/A",
        strOfMeta (metaGet doc "url") "N/A",
        ⟨doc.page_content.data.take 500⟩,
        d,
        testTypesOf doc⟩

/-- The body of the endpoint's `try` block: search, cap at `max_results`,
format. -/
def tryBody (sq original : String) (is_url : Bool) (url : Option String)
    (max_results : Nat)
    (store : String → ChromaFilter → Except String (List Doc)) :
    Except String SearchResp := do
  let results ← search_assessments sq store
  let formatted ← (results.take max_results).mapM formatOne
  pure ⟨sq, original, is_url, url, formatted⟩

/-- The `try`/`except Exception` wrapper: any failure inside the block becomes
an HTTP-200 response with an error string and no results. -/
def tryPhase (sq original : String) (is_url : Bool) (url : Option String)
    (max_results : Nat)
    (store : String → ChromaFilter → Except String (List Doc)) :
    Except String SearchResp :=
  match tryBody sq original is_url url max_results store with
  | Except.ok resp => Except.ok resp
  | Except.error e =>
    Except.ok ⟨"Error searching for assessments: " ++ e, original, is_url, url, []⟩

/-- The search query used on the URL path: the generated query `sq0`, with
`" Assessment duration less than <group 0>."` appended when the original
query's lower-cased text matches `(\d+)\s*minutes` and `sq0` mentions
neither `time` nor `minute`. -/
def urlQuery (query sq0 : String) : String :=
  match scanNumThenMatch "minutes".data (lowerChars query) with
  | some m0 =>
    if !hasInfix "time".data (lowerChars sq0)
        && !hasInfix "minute".data (lowerChars sq0) then
      sq0 ++ " Assessment duration less than " ++ (⟨m0⟩ : String) ++ "."
    else sq0
  | Option.none => sq0

/-- The `GET /search` handler.  `scrape` is `extract_job_description` (total:
it catches internally and returns an error-prefixed string on failure);
`gen` is `generate_search_query` (its Gemini call can raise); `store` is the
vector-store search.  `Except.ok` is an HTTP-200 response; `Except.error` is
an exception escaping the handler (an HTTP-500 fault). -/
def searchEndpoint (query : String) (is_url : Bool) (max_results : Nat)
    (scrape : String → String) (gen : String → Except String String)
    (store : String → ChromaFilter → Except String (List Doc)) :
    Except String SearchResp :=
  if is_url then
    let urlO : Option String :=
      if "http://".data.isPrefixOf query.data || "https://".data.isPrefixOf query.data then
        some query
      else extract_url_from_query query
    match urlO with
    | Option.none => Except.ok ⟨"", query, is_url, Option.none, []⟩
    | some url =>
      let job_description := scrape url
      if "Error".data.isPrefixOf job_description.data then
        Except.ok ⟨job_description, query, is_url, some url, []⟩
      else
        match gen job_description with
        | Except.error e => Except.error e
        | Except.ok sq0 =>
          tryPhase (urlQuery query sq0) query is_url (some url) max_results store
  else tryPhase query query is_url Option.none max_results store

/-! ## The Metadata Normalizer (`clean_list_field`) -/

/-- A raw cell value handed to `clean_list_field`: missing (`None`/`NaN`), a
native list (of strings — the shape the idempotence property is about), a
string, or any other scalar. -/
inductive PyField where
  | null : PyField
  | list : List String → PyField
  | str : String → PyField
  | other : PyField
  deriving DecidableEq

/-- Skip Python whitespace. -/
def skipWs (cs : List Char) : List Char := cs.dropWhile isPySpace

/-- Parse one double-quoted string (no escape sequences: the source has
already replaced every single quote by a double quote, which breaks any
escaped content anyway). -/
def parseQuoted (cs : List Char) : Option (String × List Char) :=
  match cs with
  | c :: rest =>
    if c = dquote then
      let body := rest.takeWhile fun ch => ch ≠ dquote
      match rest.dropWhile fun ch => ch ≠ dquote with
      | c2 :: rest2 => if c2 = dquote then some (⟨body⟩, rest2) else Option.none
      | [] => Option.none
    else Option.none
  | [] => Option.none

/-- Parse the elements after an opening `[`: quoted strings separated by
commas, optional trailing comma, closing `]`, nothing but whitespace after.
Fuelled by the remaining length. -/
def parseElems : Nat → List Char → List String → Option (List String)
  | 0, _, _ => Option.none
  | fuel + 1, cs, acc =>
    match skipWs cs with
    | c :: rest =>
      if c = ']' then
        if (skipWs rest).isEmpty then some acc.reverse else Option.none
      else
        match parseQuoted (c :: rest) with
        | some (s, rest2) =>
          (match skipWs rest2 with
           | c3 :: rest3 =>
             if c3 = ',' then parseElems fuel rest3 (s :: acc)
             else if c3 = ']' then
               if (skipWs rest3).isEmpty then some (s :: acc).reverse else Option.none
             else Option.none
           | [] => Option.none)
        | Option.none => Option.none
    | [] => Option.none

/-- Model of `eval` on the bracket branch: the source's comment says the
`eval` converts a string representation of a list to an actual list, and the
claims concern exactly literal lists of quoted strings, so the model parses
those and treats everything else as the caught failure that falls through.
(The input has had every `'` replaced with `"`.) -/
def parseListLit (cs : List Char) : Option (List String) :=
  match skipWs cs with
  | c :: rest => if c = '[' then parseElems (rest.length + 1) rest [] else Option.none
  | [] => Option.none

/-- Python `s.strip()` on the ASCII range. -/
def stripChars (cs : List Char) : List Char :=
  ((cs.dropWhile isPySpace).reverse.dropWhile isPySpace).reverse

/-- Python `s.split(',')`. -/
def splitComma (cs : List Char) : List (List Char) :=
  cs.foldr
    (fun c acc =>
      match acc with
      | g :: rest => if c = ',' then [] :: g :: rest else (c :: g) :: rest
      | [] => [[c]])
    [[]]

/-- `[item.strip() for item in field.split(',') if item.strip()]`. -/
def commaSplit (s : String) : List String :=
  ((splitComma s.data).map fun cs => (⟨stripChars cs⟩ : String)).filter fun x => x ≠ ""

/-- `clean_list_field`.  `pd.isna(field)` on a list is an element-wise array;
its use under `if` raises `ValueError: The truth value of an array with more
than one element is ambiguous` for lists of two or more elements (a
one-element array of `False` is still accepted as falsy), so the guard
raises before the `isinstance(field, list)` branch can return the list. -/
def clean_list_field : PyField → Except String (List String)
  | PyField.null => Except.ok []
  | PyField.other => Except.ok []
  | PyField.list xs =>
    if 2 ≤ xs.length then
      Except.error "ValueError: The truth value of an array with more than one element is ambiguous"
    else Except.ok xs
  | PyField.str s =>
    if s = "" then Except.ok []
    else if s.data.head? = some '[' && s.data.getLast? = some ']' then
      match parseListLit (s.data.map fun c => if c = squote then dquote else c) with
      | some xs => Except.ok xs
      | Option.none => Except.ok (commaSplit s)
    else Except.ok (commaSplit s)

/-! ## Helper lemmas about the compiled conditions -/

/-- Keys of duration-type conditions. -/
def isDurCondKey (k : String) : Bool :=
  k = "duration_range" || k = "duration_under_45" || k = "duration_under_60"

theorem jobLevelConds_mem {ql : List Char} {c : Condition} (hc : c ∈ jobLevelConds ql) :
    ∃ lv, lv ∈ compilerJobLevels ∧ c = (jobLevelKey lv, PyV.b true) := by
  rw [jobLevelConds, List.mem_filterMap] at hc
  obtain ⟨lv, hlv, hf⟩ := hc
  by_cases hw : wordSearch lv ql
  · simp only [hw, if_true, Option.some.injEq] at hf
    exact ⟨lv, hlv, hf.symm⟩
  · simp [hw] at hf

theorem languageConds_mem {ql : List Char} {c : Condition} (hc : c ∈ languageConds ql) :
    ∃ lg, lg ∈ compilerLanguages ∧ c = (langKeyCompiler lg, PyV.b true) := by
  rw [languageConds, List.mem_filterMap] at hc
  obtain ⟨lg, hlg, hf⟩ := hc
  by_cases hw : wordSearch lg ql
  · simp only [hw, if_true, Option.some.injEq] at hf
    exact ⟨lg, hlg, hf.symm⟩
  · simp [hw] at hf

theorem mem_ite_singleton {α : Type} {c x : α} {p : Prop} [Decidable p]
    (h : c ∈ if p then [x] else ([] : List α)) : c = x := by
  split at h
  · simpa using h
  · simp at h

theorem categoryConds_mem {ql : List Char} {c : Condition} (hc : c ∈ categoryConds ql) :
    c ∈ [(("contains_cognitive" : String), PyV.b true), ("contains_personality", PyV.b true),
         ("contains_technical", PyV.b true), ("contains_soft_skill", PyV.b true)] := by
  rw [categoryConds] at hc
  rcases List.mem_append.1 hc with hc | hc
  · rcases List.mem_append.1 hc with hc | hc
    · rcases List.mem_append.1 hc with hc | hc
      · rw [mem_ite_singleton hc]; decide
      · rw [mem_ite_singleton hc]; decide
    · rw [mem_ite_singleton hc]; decide
  · rw [mem_ite_singleton hc]; decide

theorem durationConds_mem {ql : List Char} {c : Condition} (hc : c ∈ durationConds ql) :
    c ∈ [(("duration_range" : String), PyV.s "very_short"), ("duration_range", PyV.s "short"),
         ("duration_under_45", PyV.b true), ("duration_under_60", PyV.b true)] := by
  rw [durationConds] at hc
  rcases hs : scanNumThen "min".data ql with _ | m
  · rw [hs] at hc; simp at hc
  · rw [hs] at hc
    dsimp only at hc
    split_ifs at hc <;> simp_all

theorem featureConds_mem {ql : List Char} {c : Condition} (hc : c ∈ featureConds ql) :
    c ∈ [(("remote_testing" : String), PyV.b true), ("adaptive_irt", PyV.b true)] := by
  rw [featureConds] at hc
  rcases List.mem_append.1 hc with hc | hc
  · rw [mem_ite_singleton hc]; decide
  · rw [mem_ite_singleton hc]; decide

theorem filter_isDur_jl (ql : List Char) :
    (jobLevelConds ql).filter (fun c => isDurCondKey c.1) = [] := by
  rw [List.filter_eq_nil_iff]
  intro c hc
  obtain ⟨lv, hlv, rfl⟩ := jobLevelConds_mem hc
  have hall : compilerJobLevels.all (fun lv => !isDurCondKey (jobLevelKey lv)) = true := by
    decide
  simpa using List.all_eq_true.1 hall lv hlv

theorem filter_isDur_lang (ql : List Char) :
    (languageConds ql).filter (fun c => isDurCondKey c.1) = [] := by
  rw [List.filter_eq_nil_iff]
  intro c hc
  obtain ⟨lg, hlg, rfl⟩ := languageConds_mem hc
  have hall : compilerLanguages.all (fun lg => !isDurCondKey (langKeyCompiler lg)) = true := by
    decide
  simpa using List.all_eq_true.1 hall lg hlg

theorem filter_isDur_cat (ql : List Char) :
    (categoryConds ql).filter (fun c => isDurCondKey c.1) = [] := by
  rw [List.filter_eq_nil_iff]
  intro c hc
  have h := categoryConds_mem hc
  simp only [List.mem_cons, List.not_mem_nil, or_false] at h
  rcases h with rfl | rfl | rfl | rfl <;> decide

theorem filter_isDur_feat (ql : List Char) :
    (featureConds ql).filter (fun c => isDurCondKey c.1) = [] := by
  rw [List.filter_eq_nil_iff]
  intro c hc
  have h := featureConds_mem hc
  simp only [List.mem_cons, List.not_mem_nil, or_false] at h
  rcases h with rfl | rfl <;> decide

/-! ## C2: shape of the compiled filter -/

/-- C2: for every query, the compiled filter has exactly one of three shapes —
absent when zero conditions matched, the single field=value dictionary when
one matched, and `{"$or": [...]}` over all matched conditions when more than
one matched.  It is never a conjunction: the only operator dictionary it can
return is `$or`, and a plain dictionary it returns always holds exactly one
field equality. -/
theorem spec_C2 (q : String) :
    ((filter_conditions q = [] ∧ extract_filters_from_query q = ChromaFilter.noFilter) ∨
     (∃ c, filter_conditions q = [c] ∧ extract_filters_from_query q = ChromaFilter.dict [c]) ∨
     (2 ≤ (filter_conditions q).length ∧
      extract_filters_from_query q =
        ChromaFilter.opDict "$or" ((filter_conditions q).map fun c => [c]))) ∧
    (∀ op ds, extract_filters_from_query q = ChromaFilter.opDict op ds → op = "$or") ∧
    (∀ entries, extract_filters_from_query q = ChromaFilter.dict entries →
      entries.length = 1) := by
  rcases h : filter_conditions q with _ | ⟨c, _ | ⟨c2, cs⟩⟩
  · refine ⟨Or.inl ⟨rfl, ?_⟩, ?_, ?_⟩ <;>
      simp [extract_filters_from_query, h]
  · refine ⟨Or.inr (Or.inl ⟨c, rfl, ?_⟩), ?_, ?_⟩ <;>
      simp [extract_filters_from_query, h]
  · refine ⟨Or.inr (Or.inr ⟨?_, ?_⟩), ?_, ?_⟩ <;>
      simp [extract_filters_from_query, h]

/-- Witness for C2 at the concrete query `"personality"`, which compiles to a
single-condition dictionary. -/
theorem spec_C2_witness :
    extract_filters_from_query "personality" =
      ChromaFilter.dict [("contains_personality", PyV.b true)] ∧
    ([(("contains_personality" : String), PyV.b true)] : List Condition).length = 1 :=
  ⟨by decide,
   (spec_C2 "personality").2.2 [("contains_personality", PyV.b true)] (by decide)⟩

/-! ## C3: duration bucketing in the filter compiler -/

/-- C3 (amended): when the query contains `<N> min(s)/minutes`, the compiler
appends exactly one duration condition for `N ≤ 60` — `duration_range =
very_short` for `N ≤ 15`, `duration_range = short` for `15 < N ≤ 30`,
`duration_under_45 = true` for `30 < N ≤ 45`, `duration_under_60 = true` for
`45 < N ≤ 60` — and appends no duration condition at all for `N > 60`. -/
theorem spec_C3_amended (q : String) (N : Nat)
    (h : scanNumThen "min".data (lowerChars q) = some N) :
    (filter_conditions q).filter (fun c => isDurCondKey c.1) =
      (if N ≤ 15 then [(("duration_range" : String), PyV.s "very_short")]
       else if N ≤ 30 then [("duration_range", PyV.s "short")]
       else if N ≤ 45 then [("duration_under_45", PyV.b true)]
       else if N ≤ 60 then [("duration_under_60", PyV.b true)]
       else []) := by
  rw [filter_conditions]
  rw [List.filter_append, List.filter_append, List.filter_append, List.filter_append]
  rw [filter_isDur_jl, filter_isDur_cat, filter_isDur_lang, filter_isDur_feat]
  simp only [List.nil_append, List.append_nil]
  rw [durationConds, h]
  dsimp only
  split_ifs <;> simp_all [isDurCondKey]

/-- Counterexample to C3 as stated: the query `"90 minutes"` contains the
duration expression with `N = 90`, yet the compiler appends no duration
condition (in fact no condition at all), not "exactly one". -/
theorem spec_C3_counterexample :
    scanNumThen "min".data (lowerChars "90 minutes") = some 90 ∧
    filter_conditions "90 minutes" = [] := by
  constructor
  · decide
  · decide

/-- Witness for C3's amended theorem at the claim's own example: a query
mentioning `"20 minutes"` yields `duration_range = short`, not `very_short`. -/
theorem spec_C3_witness :
    scanNumThen "min".data (lowerChars "20 minutes") = some 20 ∧
    (filter_conditions "20 minutes").filter (fun c => isDurCondKey c.1) =
      [(("duration_range" : String), PyV.s "short")] := by
  refine ⟨by decide, ?_⟩
  have h := spec_C3_amended "20 minutes" 20 (by decide)
  simpa using h

/-! ## C1 and C10: the numeric duration post-filter -/

/-- A minimal retrieved document with only numeric duration metadata. -/
def docDur (d : ℚ) : Doc := ⟨"", [("duration", MetaVal.q d)]⟩

/-- Modelled from the claim's words, for comparison with the source's
post-filter: keep the documents whose duration metadata is `≤ N`, and fall
back to the first 3 pre-filter results only when that leaves nothing. -/
def specDurationFilter (N : ℚ) (rs : List Doc) : List Doc :=
  let f := rs.filter fun doc =>
    match metaGet doc "duration" with
    | some (MetaVal.q d) => d ≤ N
    | _ => false
  if f.isEmpty then rs.take 3 else f

/-- Counterexample to C1 as stated: with pre-filter durations `[0, 20, 40]`
and the constraint `≤ 10`, the claim's post-filter keeps exactly the
0-minute document, but the source's truthiness test drops it too, so the
code takes the 3-result fallback and returns all three documents. -/
theorem spec_C1_counterexample :
    scanNumThen "minutes".data (lowerChars "within 10 minutes") = some 10 ∧
    durationPostFilter "within 10 minutes" [docDur 0, docDur 20, docDur 40] =
      [docDur 0, docDur 20, docDur 40] ∧
    specDurationFilter 10 [docDur 0, docDur 20, docDur 40] = [docDur 0] ∧
    ([docDur 0, docDur 20, docDur 40] : List Doc) ≠ [docDur 0] := by
  refine ⟨by decide, by decide, by decide, by decide⟩

/-- C1 (amended): for a query whose `(\d+)\s*minutes` expression has value
`N ≥ 1` and pre-filter results whose duration metadata is numeric or absent,
the orchestrator returns the documents whose duration is truthy (present and
nonzero) and `≤ N`; when that set is empty it returns the first 3 pre-filter
results instead, so a non-empty pre-filter list never yields an empty
answer.  (When `N = 0` the extracted constraint is falsy and no
post-filtering happens at all.) -/
theorem spec_C1_amended (q : String) (rs : List Doc) (N : Nat)
    (hscan : scanNumThen "minutes".data (lowerChars q) = some N) (hN : 1 ≤ N)
    (hnum : ∀ doc ∈ rs, numericDur doc = true) :
    durationPostFilter q rs =
      (if rs.filter (keepByDuration N) = [] then rs.take 3
       else rs.filter (keepByDuration N)) ∧
    (rs ≠ [] → durationPostFilter q rs ≠ []) ∧
    (∀ doc ∈ rs.filter (keepByDuration N), ∃ d : ℚ,
      metaGet doc "duration" = some (MetaVal.q d) ∧ d ≠ 0 ∧ d ≤ (N : ℚ)) := by
  have hmain : durationPostFilter q rs =
      (if rs.filter (keepByDuration N) = [] then rs.take 3
       else rs.filter (keepByDuration N)) := by
    rw [durationPostFilter, hscan]
    dsimp only
    rw [if_neg (by omega : ¬ N = 0)]
    by_cases he : rs.filter (keepByDuration N) = []
    · rw [if_pos he, if_pos (List.isEmpty_iff.2 he)]
    · rw [if_neg he, if_neg (fun h => he (List.isEmpty_iff.1 h))]
  refine ⟨hmain, ?_, ?_⟩
  · intro hne
    rw [hmain]
    by_cases he : rs.filter (keepByDuration N) = []
    · rw [if_pos he]
      intro h3
      rcases List.take_eq_nil_iff.1 h3 with h | h
      · exact absurd h (by omega)
      · exact hne h
    · rw [if_neg he]
      exact he
  · intro doc hdoc
    rw [List.mem_filter] at hdoc
    obtain ⟨hmem, hkeep⟩ := hdoc
    have hn := hnum doc hmem
    rw [numericDur] at hn
    rcases hv : metaGet doc "duration" with _ | v
    · rw [keepByDuration, hv] at hkeep
      simp [durTruthy] at hkeep
    · rcases v with s | d | b
      · rw [hv] at hn; simp at hn
      · refine ⟨d, rfl, ?_, ?_⟩
        · rw [keepByDuration, hv] at hkeep
          simp only [durTruthy, Bool.and_eq_true, decide_eq_true_eq] at hkeep
          exact hkeep.1
        · rw [keepByDuration, hv] at hkeep
          simp only [durFloat, durTruthy, Option.getD_some, Bool.and_eq_true,
            decide_eq_true_eq] at hkeep
          exact hkeep.2
      · rw [hv] at hn; simp at hn

/-- Witness for C1's amended theorem at the claim's own examples: pre-filter
durations `[10, 20, 40, 50, 70]`; with `≤ 15` exactly the 10-minute document
comes back, with `≤ 5` the first 3 of the unfiltered list come back. -/
theorem spec_C1_witness :
    durationPostFilter "within 15 minutes"
      [docDur 10, docDur 20, docDur 40, docDur 50, docDur 70] = [docDur 10] ∧
    durationPostFilter "complete in 5 minutes"
      [docDur 10, docDur 20, docDur 40, docDur 50, docDur 70] =
      [docDur 10, docDur 20, docDur 40] := by
  constructor
  · have h := (spec_C1_amended "within 15 minutes"
      [docDur 10, docDur 20, docDur 40, docDur 50, docDur 70] 15
      (by decide) (by decide) (by decide)).1
    rw [h]; decide
  · have h := (spec_C1_amended "complete in 5 minutes"
      [docDur 10, docDur 20, docDur 40, docDur 50, docDur 70] 5
      (by decide) (by decide) (by decide)).1
    rw [h]; decide

/-- Five distinct zero-duration documents. -/
def zdoc (n : String) : Doc := ⟨"", [("name", MetaVal.s n), ("duration", MetaVal.q 0)]⟩

/-- The zero-duration corpus for the C10 counterexample. -/
def zdocs : List Doc := [zdoc "1", zdoc "2", zdoc "3", zdoc "4", zdoc "5"]

/-- Counterexample to C10 as stated: the query `"0 minutes"` contains the
maximum-duration expression (with value 0), but `if max_duration:` is falsy
for 0, so no post-filtering happens: all five zero-duration documents are
returned unchanged — the fourth one is in the output yet not among the
first 3, so it was not returned "via the 3-result fallback". -/
theorem spec_C10_counterexample :
    scanNumThen "minutes".data (lowerChars "0 minutes") = some 0 ∧
    durationPostFilter "0 minutes" zdocs = zdocs ∧
    zdoc "4" ∈ durationPostFilter "0 minutes" zdocs ∧
    zdoc "4" ∉ zdocs.take 3 ∧
    metaGet (zdoc "4") "duration" = some (MetaVal.q 0) := by
  refine ⟨by decide, by decide, by decide, by decide, by decide⟩

/-- C10 (amended): for a query whose `(\d+)\s*minutes` expression has value
`N ≥ 1`, a retrieved document whose duration metadata is missing or `0`
never passes the numeric post-filter (its membership test requires a truthy
duration before comparing, even though `0 ≤ N`); such a document appears in
the output only when the whole post-filter came up empty and the first-3
fallback was returned.  (For `N = 0` the falsy `max_duration` skips
post-filtering entirely and the full pre-filter list is returned.) -/
theorem spec_C10_amended (q : String) (rs : List Doc) (N : Nat) (doc : Doc)
    (hscan : scanNumThen "minutes".data (lowerChars q) = some N) (hN : 1 ≤ N)
    (hz : metaGet doc "duration" = Option.none ∨ metaGet doc "duration" = some (MetaVal.q 0)) :
    doc ∉ rs.filter (keepByDuration N) ∧
    (doc ∈ durationPostFilter q rs →
      rs.filter (keepByDuration N) = [] ∧ durationPostFilter q rs = rs.take 3) := by
  have hkeep : keepByDuration N doc = false := by
    rcases hz with hz | hz <;> simp [keepByDuration, durTruthy, hz]
  have hnotmem : doc ∉ rs.filter (keepByDuration N) := by
    intro hmem
    rw [List.mem_filter] at hmem
    rw [hkeep] at hmem
    exact absurd hmem.2 (by simp)
  refine ⟨hnotmem, ?_⟩
  intro hin
  rw [durationPostFilter, hscan] at hin ⊢
  dsimp only at hin ⊢
  rw [if_neg (by omega : ¬ N = 0)] at hin ⊢
  by_cases he : (rs.filter (keepByDuration N)).isEmpty
  · rw [if_pos he]
    exact ⟨List.isEmpty_iff.1 he, rfl⟩
  · rw [if_neg he] at hin
    exact absurd hin hnotmem

/-- Witness for C10's amended theorem: one zero-duration document against the
query `"10 minutes"` — it is excluded from the post-filter, which therefore
empties, and it comes back only through the first-3 fallback. -/
theorem spec_C10_witness :
    docDur 0 ∉ ([docDur 0] : List Doc).filter (keepByDuration 10) ∧
    ([docDur 0] : List Doc).filter (keepByDuration 10) = [] ∧
    durationPostFilter "10 minutes" [docDur 0] = ([docDur 0] : List Doc).take 3 := by
  have h := spec_C10_amended "10 minutes" [docDur 0] 10 (docDur 0)
    (by decide) (by decide) (Or.inr (by decide))
  have hin : docDur 0 ∈ durationPostFilter "10 minutes" [docDur 0] := by decide
  exact ⟨h.1, (h.2 hin).1, (h.2 hin).2⟩

/-! ## Helper lemmas about metadata lookups -/

theorem strApp_ne (p x t : String) (h : t.data.take p.data.length ≠ p.data) :
    p ++ x ≠ t := by
  intro he
  apply h
  rw [← he, String.data_append]
  exact List.take_left p.data x.data

theorem find?_key_append (k : String) (l₁ l₂ : List (String × MetaVal))
    (h : ∀ e ∈ l₁, e.1 ≠ k) :
    (l₁ ++ l₂).find? (fun e => e.1 = k) = l₂.find? (fun e => e.1 = k) := by
  induction l₁ with
  | nil => rfl
  | cons a l ih =>
    rw [List.cons_append,
      List.find?_cons_of_neg _ (by simpa using h a (List.mem_cons_self a l))]
    exact ih fun e he => h e (List.mem_cons_of_mem a he)

theorem jlFlags_key_ne (jls : List String) (row : Row) (k : String)
    (hk : k.data.take 10 ≠ "job_level_".data) :
    ∀ e ∈ jlFlags jls row, e.1 ≠ k := by
  intro e he
  rw [jlFlags] at he
  obtain ⟨lv, _, rfl⟩ := List.mem_map.1 he
  exact strApp_ne "job_level_" (normKey lv) k hk

theorem langFlags_key_ne (langs : List String) (row : Row) (k : String)
    (hk : k.data.take 9 ≠ "language_".data) :
    ∀ e ∈ langFlags langs row, e.1 ≠ k := by
  intro e he
  rw [langFlags] at he
  obtain ⟨lg, _, rfl⟩ := List.mem_map.1 he
  exact strApp_ne "language_" _ k hk

theorem baseMeta_key_ne (row : Row) (k : String)
    (hk : k ∉ ["name", "url", "description", "duration", "remote_testing", "adaptive_irt",
               "search_keywords", "duration_range"]) :
    ∀ e ∈ baseMeta row, e.1 ≠ k := by
  intro e he
  simp only [baseMeta, List.mem_cons, List.not_mem_nil, or_false] at he
  intro hh
  apply hk
  rw [← hh]
  rcases he with rfl | rfl | rfl | rfl | rfl | rfl | rfl | rfl <;> simp

theorem ttFlags_key_ne (row : Row) (k : String)
    (hk : testTypeCodes.all (fun code => !(decide ("test_type_" ++ code = k))) = true) :
    ∀ e ∈ ttFlags row, e.1 ≠ k := by
  intro e he
  rw [ttFlags] at he
  obtain ⟨code, hcode, rfl⟩ := List.mem_map.1 he
  simpa using List.all_eq_true.1 hk code hcode

/-- Lookup of a key that lives in the category/duration tail of a built
document's metadata skips everything before it. -/
theorem metaGet_catdur (jls langs : List String) (row : Row) (k : String)
    (hbase : ∀ e ∈ baseMeta row, e.1 ≠ k)
    (hjl : k.data.take 10 ≠ "job_level_".data)
    (hlang : k.data.take 9 ≠ "language_".data)
    (htt : ∀ e ∈ ttFlags row, e.1 ≠ k) :
    metaGet (buildDoc jls langs row) k =
      ((catFlags row ++ durFlags row).find? (fun e => e.1 = k)).map (fun e => e.2) := by
  rw [metaGet, buildDoc]
  dsimp only
  rw [find?_key_append k _ _ hbase,
      find?_key_append k _ _ (jlFlags_key_ne jls row k hjl),
      find?_key_append k _ _ (langFlags_key_ne langs row k hlang),
      find?_key_append k _ _ htt]

/-! ## C5: category aggregates -/

/-- Rewriting an aggregate over the mapped categories as an aggregate over the
codes themselves. -/
theorem cats_any (tts : List String) (p : String → Bool) :
    (test_type_categories tts).any p =
      tts.any fun tt =>
        match catOf (upperStr tt) with
        | some cat => p cat
        | Option.none => false := by
  induction tts with
  | nil => rfl
  | cons t ts ih =>
    simp only [test_type_categories, List.filterMap_cons] at ih ⊢
    cases h : catOf (upperStr t) with
    | none => simp only [h, List.any_cons]; rw [ih]; rfl
    | some cat => simp only [h, List.any_cons]; rw [ih]

theorem catTest_cognitive (s : String) :
    (match catOf s with
     | some cat => cat = "Ability & Aptitude" || cat = "Knowledge & Skills"
     | Option.none => false) = (s = "A" || s = "K") := by
  rw [catOf]
  split_ifs <;> simp_all

theorem catTest_personality (s : String) :
    (match catOf s with
     | some cat => decide (cat = "Personality & Behavior")
     | Option.none => false) = decide (s = "P") := by
  rw [catOf]
  split_ifs <;> simp_all

theorem catTest_technical (s : String) :
    (match catOf s with
     | some cat => cat = "Knowledge & Skills" || cat = "Simulation"
     | Option.none => false) = (s = "K" || s = "S") := by
  rw [catOf]
  split_ifs <;> simp_all

theorem catTest_soft (s : String) :
    (match catOf s with
     | some cat => cat = "Competencies" || cat = "Biodata & Situational Judgment"
         || cat = "Personality & Behavior"
     | Option.none => false) = (s = "C" || s = "B" || s = "P") := by
  rw [catOf]
  split_ifs <;> simp_all

theorem metaGet_cognitive (jls langs : List String) (row : Row) :
    metaGet (buildDoc jls langs row) "contains_cognitive" =
      some (MetaVal.b (row.test_type.any fun c => upperStr c = "A" || upperStr c = "K")) := by
  rw [metaGet_catdur jls langs row _ (baseMeta_key_ne row _ (by decide)) (by decide) (by decide)
      (ttFlags_key_ne row _ (by decide))]
  rw [catFlags]
  rw [List.cons_append, List.find?_cons_of_pos _ (by simp)]
  simp only [Option.map_some', Option.some.injEq, MetaVal.b.injEq]
  rw [cats_any]
  congr 1
  funext tt
  exact catTest_cognitive (upperStr tt)

theorem metaGet_personality (jls langs : List String) (row : Row) :
    metaGet (buildDoc jls langs row) "contains_personality" =
      some (MetaVal.b (row.test_type.any fun c => upperStr c = "P")) := by
  rw [metaGet_catdur jls langs row _ (baseMeta_key_ne row _ (by decide)) (by decide) (by decide)
      (ttFlags_key_ne row _ (by decide))]
  rw [catFlags]
  rw [List.cons_append, List.find?_cons_of_neg _ (by simp),
      List.cons_append, List.find?_cons_of_pos _ (by simp)]
  simp only [Option.map_some', Option.some.injEq, MetaVal.b.injEq]
  rw [cats_any]
  congr 1
  funext tt
  exact catTest_personality (upperStr tt)

theorem metaGet_technical (jls langs : List String) (row : Row) :
    metaGet (buildDoc jls langs row) "contains_technical" =
      some (MetaVal.b (row.test_type.any fun c => upperStr c = "K" || upperStr c = "S")) := by
  rw [metaGet_catdur jls langs row _ (baseMeta_key_ne row _ (by decide)) (by decide) (by decide)
      (ttFlags_key_ne row _ (by decide))]
  rw [catFlags]
  rw [List.cons_append, List.find?_cons_of_neg _ (by simp),
      List.cons_append, List.find?_cons_of_neg _ (by simp),
      List.cons_append, List.find?_cons_of_pos _ (by simp)]
  simp only [Option.map_some', Option.some.injEq, MetaVal.b.injEq]
  rw [cats_any]
  congr 1
  funext tt
  exact catTest_technical (upperStr tt)

theorem metaGet_soft (jls langs : List String) (row : Row) :
    metaGet (buildDoc jls langs row) "contains_soft_skill" =
      some (MetaVal.b (row.test_type.any fun c =>
        upperStr c = "C" || upperStr c = "B" || upperStr c = "P")) := by
  rw [metaGet_catdur jls langs row _ (baseMeta_key_ne row _ (by decide)) (by decide) (by decide)
      (ttFlags_key_ne row _ (by decide))]
  rw [catFlags]
  rw [List.cons_append, List.find?_cons_of_neg _ (by simp),
      List.cons_append, List.find?_cons_of_neg _ (by simp),
      List.cons_append, List.find?_cons_of_neg _ (by simp),
      List.cons_append, List.find?_cons_of_pos _ (by simp)]
  simp only [Option.map_some', Option.some.injEq, MetaVal.b.injEq]
  rw [cats_any]
  congr 1
  funext tt
  exact catTest_soft (upperStr tt)

/-- The record used in the claim's concrete check. -/
def rowKP : Row := ⟨"X", "u", "d", RawDur.num 10, true, false, [], [], ["K", "P"]⟩

/-- C5: the Document Builder sets the four category aggregates exactly as
intersections of the record's (upper-cased) test-type codes with the fixed
category code sets — cognitive `{A,K}`, personality `{P}`, technical `{K,S}`,
soft-skill `{C,B,P}`; unknown codes contribute nothing.  In particular, a
record with `test_type = ["K","P"]` has all four aggregates true. -/
theorem spec_C5 :
    (∀ (jls langs : List String) (row : Row),
      metaGet (buildDoc jls langs row) "contains_cognitive" =
        some (MetaVal.b (row.test_type.any fun c => upperStr c = "A" || upperStr c = "K")) ∧
      metaGet (buildDoc jls langs row) "contains_personality" =
        some (MetaVal.b (row.test_type.any fun c => upperStr c = "P")) ∧
      metaGet (buildDoc jls langs row) "contains_technical" =
        some (MetaVal.b (row.test_type.any fun c => upperStr c = "K" || upperStr c = "S")) ∧
      metaGet (buildDoc jls langs row) "contains_soft_skill" =
        some (MetaVal.b (row.test_type.any fun c =>
          upperStr c = "C" || upperStr c = "B" || upperStr c = "P"))) ∧
    (metaGet (buildDoc [] [] rowKP) "contains_cognitive" = some (MetaVal.b true) ∧
     metaGet (buildDoc [] [] rowKP) "contains_personality" = some (MetaVal.b true) ∧
     metaGet (buildDoc [] [] rowKP) "contains_technical" = some (MetaVal.b true) ∧
     metaGet (buildDoc [] [] rowKP) "contains_soft_skill" = some (MetaVal.b true)) :=
  ⟨fun jls langs row =>
    ⟨metaGet_cognitive jls langs row, metaGet_personality jls langs row,
     metaGet_technical jls langs row, metaGet_soft jls langs row⟩,
   by decide, by decide, by decide, by decide⟩

/-! ## C6: identical metadata key set across the corpus -/

/-- The key list every built document carries, determined by the corpus
vocabularies alone. -/
def docKeyTemplate (jls langs : List String) : List String :=
  ["name", "url", "description", "duration", "remote_testing", "adaptive_irt",
   "search_keywords", "duration_range"] ++
  (jls.map jobLevelKey ++ (langs.map langKeyBuilder ++
  (testTypeCodes.map (fun code => "test_type_" ++ code) ++
  (["contains_cognitive", "contains_personality", "contains_technical", "contains_soft_skill"] ++
   ["duration_under_30", "duration_under_45", "duration_under_60"]))))

theorem metaKeys_buildDoc (jls langs : List String) (row : Row) :
    metaKeys (buildDoc jls langs row) = docKeyTemplate jls langs := by
  simp only [metaKeys, buildDoc, docKeyTemplate, baseMeta, jlFlags, langFlags, ttFlags,
    catFlags, durFlags, List.map_append, List.map_map, List.map_cons, List.map_nil,
    List.cons_append, List.nil_append]
  rfl

/-- C6: all documents produced from one catalog have the identical metadata
key list — the same basic fields, job-level/language/test-type flags,
category aggregates and duration fields, differing only in values. -/
theorem spec_C6 (df : List Row) (d₁ d₂ : Doc)
    (h₁ : d₁ ∈ prepare_documents df) (h₂ : d₂ ∈ prepare_documents df) :
    metaKeys d₁ = metaKeys d₂ := by
  rw [prepare_documents] at h₁ h₂
  obtain ⟨r₁, _, rfl⟩ := List.mem_map.1 h₁
  obtain ⟨r₂, _, rfl⟩ := List.mem_map.1 h₂
  rw [metaKeys_buildDoc, metaKeys_buildDoc]

/-- First corpus row for the C6 witness. -/
def rowW1 : Row := ⟨"A", "u1", "d1", RawDur.num 10, true, false, ["Graduate"], ["English"], ["K"]⟩

/-- Second corpus row for the C6 witness, with different shapes everywhere. -/
def rowW2 : Row := ⟨"B", "u2", "d2", RawDur.str "abc", false, true, ["Manager"], [], ["P", "S"]⟩

/-- The two-row corpus for the C6 witness. -/
def dfW : List Row := [rowW1, rowW2]

/-- Witness for C6 on a concrete two-row corpus. -/
theorem spec_C6_witness :
    metaKeys (buildDoc (allJobLevels dfW) (allLanguages dfW) rowW1) =
      metaKeys (buildDoc (allJobLevels dfW) (allLanguages dfW) rowW2) :=
  spec_C6 dfW _ _ (List.mem_map_of_mem _ (by decide)) (List.mem_map_of_mem _ (by decide))

/-! ## C7: duration metadata is total and follows the buckets -/

theorem metaGet_duration (jls langs : List String) (row : Row) :
    metaGet (buildDoc jls langs row) "duration" =
      some (MetaVal.q (coercedDuration row.duration)) := by
  rw [metaGet, buildDoc]
  dsimp only
  rw [baseMeta]
  rw [List.cons_append, List.find?_cons_of_neg _ (by simp),
      List.cons_append, List.find?_cons_of_neg _ (by simp),
      List.cons_append, List.find?_cons_of_neg _ (by simp),
      List.cons_append, List.find?_cons_of_pos _ (by simp)]
  rfl

theorem metaGet_duration_range (jls langs : List String) (row : Row) :
    metaGet (buildDoc jls langs row) "duration_range" =
      some (MetaVal.s (get_duration_range row.duration)) := by
  rw [metaGet, buildDoc]
  dsimp only
  rw [baseMeta]
  rw [List.cons_append, List.find?_cons_of_neg _ (by simp),
      List.cons_append, List.find?_cons_of_neg _ (by simp),
      List.cons_append, List.find?_cons_of_neg _ (by simp),
      List.cons_append, List.find?_cons_of_neg _ (by simp),
      List.cons_append, List.find?_cons_of_neg _ (by simp),
      List.cons_append, List.find?_cons_of_neg _ (by simp),
      List.cons_append, List.find?_cons_of_neg _ (by simp),
      List.cons_append, List.find?_cons_of_pos _ (by simp)]
  rfl

theorem metaGet_under30 (jls langs : List String) (row : Row) :
    metaGet (buildDoc jls langs row) "duration_under_30" =
      some (MetaVal.b (coercedDuration row.duration ≤ 30)) := by
  rw [metaGet_catdur jls langs row _ (baseMeta_key_ne row _ (by decide)) (by decide) (by decide)
      (ttFlags_key_ne row _ (by decide))]
  rw [catFlags]
  rw [List.cons_append, List.find?_cons_of_neg _ (by simp),
      List.cons_append, List.find?_cons_of_neg _ (by simp),
      List.cons_append, List.find?_cons_of_neg _ (by simp),
      List.cons_append, List.find?_cons_of_neg _ (by simp),
      List.nil_append, durFlags]
  rw [List.find?_cons_of_pos _ (by simp)]
  rfl

theorem metaGet_under45 (jls langs : List String) (row : Row) :
    metaGet (buildDoc jls langs row) "duration_under_45" =
      some (MetaVal.b (coercedDuration row.duration ≤ 45)) := by
  rw [metaGet_catdur jls langs row _ (baseMeta_key_ne row _ (by decide)) (by decide) (by decide)
      (ttFlags_key_ne row _ (by decide))]
  rw [catFlags]
  rw [List.cons_append, List.find?_cons_of_neg _ (by simp),
      List.cons_append, List.find?_cons_of_neg _ (by simp),
      List.cons_append, List.find?_cons_of_neg _ (by simp),
      List.cons_append, List.find?_cons_of_neg _ (by simp),
      List.nil_append, durFlags]
  rw [List.find?_cons_of_neg _ (by simp), List.find?_cons_of_pos _ (by simp)]
  rfl

theorem metaGet_under60 (jls langs : List String) (row : Row) :
    metaGet (buildDoc jls langs row) "duration_under_60" =
      some (MetaVal.b (coercedDuration row.duration ≤ 60)) := by
  rw [metaGet_catdur jls langs row _ (baseMeta_key_ne row _ (by decide)) (by decide) (by decide)
      (ttFlags_key_ne row _ (by decide))]
  rw [catFlags]
  rw [List.cons_append, List.find?_cons_of_neg _ (by simp),
      List.cons_append, List.find?_cons_of_neg _ (by simp),
      List.cons_append, List.find?_cons_of_neg _ (by simp),
      List.cons_append, List.find?_cons_of_neg _ (by simp),
      List.nil_append, durFlags]
  rw [List.find?_cons_of_neg _ (by simp), List.find?_cons_of_neg _ (by simp),
      List.find?_cons_of_pos _ (by simp)]
  rfl

/-- C7: duration metadata is computed totally.  The range tag is always one of
the six tags; the metadata `duration` is the coerced value and the
`duration_under_*` flags are `coerced ≤ 30/45/60`; when `float()` fails
(non-numeric or missing raw value) the coerced duration is `0.0` and the
range is `"unknown"`; when it yields `d` the range follows the buckets
`≤15 / ≤30 / ≤45 / ≤60 / >60`. -/
theorem spec_C7 (jls langs : List String) (row : Row) :
    get_duration_range row.duration ∈
      ["very_short", "short", "medium", "standard", "long", "unknown"] ∧
    metaGet (buildDoc jls langs row) "duration" =
      some (MetaVal.q (coercedDuration row.duration)) ∧
    metaGet (buildDoc jls langs row) "duration_range" =
      some (MetaVal.s (get_duration_range row.duration)) ∧
    metaGet (buildDoc jls langs row) "duration_under_30" =
      some (MetaVal.b (coercedDuration row.duration ≤ 30)) ∧
    metaGet (buildDoc jls langs row) "duration_under_45" =
      some (MetaVal.b (coercedDuration row.duration ≤ 45)) ∧
    metaGet (buildDoc jls langs row) "duration_under_60" =
      some (MetaVal.b (coercedDuration row.duration ≤ 60)) ∧
    (pyFloat row.duration = Option.none →
      coercedDuration row.duration = 0 ∧ get_duration_range row.duration = "unknown") ∧
    (∀ d : ℚ, pyFloat row.duration = some d →
      get_duration_range row.duration =
        (if d ≤ 15 then "very_short" else if d ≤ 30 then "short" else if d ≤ 45 then "medium"
         else if d ≤ 60 then "standard" else "long")) := by
  refine ⟨?_, metaGet_duration jls langs row, metaGet_duration_range jls langs row,
    metaGet_under30 jls langs row, metaGet_under45 jls langs row, metaGet_under60 jls langs row,
    ?_, ?_⟩
  · rw [get_duration_range]
    cases h : pyFloat row.duration with
    | none => simp
    | some d => dsimp only; split_ifs <;> simp
  · intro h
    constructor
    · cases hd : row.duration with
      | num q => rw [hd] at h; simp [pyFloat] at h
      | str s =>
        rw [hd] at h
        rw [pyFloat] at h
        rw [coercedDuration]
        split_ifs
        · rw [h]; rfl
        · rfl
      | null => rfl
    · rw [get_duration_range, h]
  · intro d h
    rw [get_duration_range, h]

/-- The record with an unparseable duration for the C7 witness. -/
def rowAbc : Row := ⟨"A", "u", "d", RawDur.str "abc", false, false, [], [], []⟩

/-- Witness for C7 at a non-numeric duration: coercion yields 0, the range is
`"unknown"`, and the built document's metadata says so. -/
theorem spec_C7_witness :
    pyFloat rowAbc.duration = Option.none ∧
    coercedDuration rowAbc.duration = 0 ∧
    get_duration_range rowAbc.duration = "unknown" ∧
    metaGet (buildDoc [] [] rowAbc) "duration_range" = some (MetaVal.s "unknown") := by
  have h := spec_C7 [] [] rowAbc
  have hn : pyFloat rowAbc.duration = Option.none := by decide
  refine ⟨hn, (h.2.2.2.2.2.2.1 hn).1, (h.2.2.2.2.2.2.1 hn).2, ?_⟩
  rw [h.2.2.1, (h.2.2.2.2.2.2.1 hn).2]

/-! ## C4: shared naming scheme between compiler and builder -/

/-- Filterable field names that every built document carries regardless of the
corpus vocabulary. -/
def alwaysKeys : List String :=
  ["contains_cognitive", "contains_personality", "contains_technical", "contains_soft_skill",
   "duration_range", "duration_under_45", "duration_under_60", "remote_testing", "adaptive_irt"]

/-- The corpus vocabulary covers the compiler's fixed phrase lists. -/
def vocabOK (df : List Row) : Prop :=
  (∀ lv ∈ compilerJobLevels, lv ∈ allJobLevels df) ∧
  (∀ lg ∈ compilerLanguages, lg ∈ allLanguages df)

instance (df : List Row) : Decidable (vocabOK df) :=
  inferInstanceAs (Decidable ((∀ lv ∈ compilerJobLevels, lv ∈ allJobLevels df) ∧
    (∀ lg ∈ compilerLanguages, lg ∈ allLanguages df)))

theorem alwaysKeys_present (k : String) (hk : k ∈ alwaysKeys) (jls langs : List String) :
    k ∈ docKeyTemplate jls langs := by
  fin_cases hk <;> simp [docKeyTemplate, testTypeCodes]

theorem mem_template_jl (lv : String) (jls langs : List String) (h : lv ∈ jls) :
    jobLevelKey lv ∈ docKeyTemplate jls langs :=
  List.mem_append.2 (Or.inr (List.mem_append.2 (Or.inl (List.mem_map_of_mem _ h))))

theorem mem_template_lang (lg : String) (jls langs : List String) (h : lg ∈ langs) :
    langKeyBuilder lg ∈ docKeyTemplate jls langs :=
  List.mem_append.2 (Or.inr (List.mem_append.2 (Or.inr (List.mem_append.2
    (Or.inl (List.mem_map_of_mem _ h))))))

/-- C4 (amended): every field name a compiled filter condition references is
either one of the fixed always-present keys, or a `job_level_*` / `language_*`
key built from the compiler's fixed phrase lists with the very normalization
the Document Builder uses (the two language normalizations agree on every
compiler language name, and every compiler phrase is already case-folded);
and whenever the corpus vocabulary contains the compiler's phrases, every
referenced field is a key present in every document's metadata.  Without
that vocabulary hypothesis a compiled filter can reference a key absent from
every document (see the counterexample). -/
theorem spec_C4_amended (q : String) (c : Condition) (hc : c ∈ filter_conditions q) :
    (c.1 ∈ alwaysKeys ∨
     (∃ lv ∈ compilerJobLevels, c.1 = jobLevelKey lv) ∨
     (∃ lg ∈ compilerLanguages, c.1 = langKeyCompiler lg)) ∧
    (∀ lg ∈ compilerLanguages, langKeyCompiler lg = langKeyBuilder lg) ∧
    (∀ lv ∈ compilerJobLevels, (⟨lowerChars lv⟩ : String) = lv) ∧
    (∀ lg ∈ compilerLanguages, (⟨lowerChars lg⟩ : String) = lg) ∧
    (∀ df : List Row, vocabOK df → ∀ doc ∈ prepare_documents df, c.1 ∈ metaKeys doc) := by
  have hagr1 : ∀ lg ∈ compilerLanguages, langKeyCompiler lg = langKeyBuilder lg := by decide
  have hagr2 : ∀ lv ∈ compilerJobLevels, (⟨lowerChars lv⟩ : String) = lv := by decide
  have hagr3 : ∀ lg ∈ compilerLanguages, (⟨lowerChars lg⟩ : String) = lg := by decide
  rw [filter_conditions] at hc
  have halways : ∀ hk : c.1 ∈ alwaysKeys,
      (∀ df : List Row, vocabOK df → ∀ doc ∈ prepare_documents df, c.1 ∈ metaKeys doc) := by
    intro hk df _ doc hdoc
    rw [prepare_documents] at hdoc
    obtain ⟨r, _, rfl⟩ := List.mem_map.1 hdoc
    rw [metaKeys_buildDoc]
    exact alwaysKeys_present _ hk _ _
  rcases List.mem_append.1 hc with hc | hfeat
  · rcases List.mem_append.1 hc with hc | hlang
    · rcases List.mem_append.1 hc with hc | hdur
      · rcases List.mem_append.1 hc with hjl | hcat
        · obtain ⟨lv, hlv, rfl⟩ := jobLevelConds_mem hjl
          refine ⟨Or.inr (Or.inl ⟨lv, hlv, rfl⟩), hagr1, hagr2, hagr3, ?_⟩
          intro df hdf doc hdoc
          rw [prepare_documents] at hdoc
          obtain ⟨r, _, rfl⟩ := List.mem_map.1 hdoc
          rw [metaKeys_buildDoc]
          exact mem_template_jl lv _ _ (hdf.1 lv hlv)
        · have h4 := categoryConds_mem hcat
          simp only [List.mem_cons, List.not_mem_nil, or_false] at h4
          have hk : c.1 ∈ alwaysKeys := by
            rcases h4 with rfl | rfl | rfl | rfl <;> decide
          exact ⟨Or.inl hk, hagr1, hagr2, hagr3, halways hk⟩
      · have h4 := durationConds_mem hdur
        simp only [List.mem_cons, List.not_mem_nil, or_false] at h4
        have hk : c.1 ∈ alwaysKeys := by
          rcases h4 with rfl | rfl | rfl | rfl <;> decide
        exact ⟨Or.inl hk, hagr1, hagr2, hagr3, halways hk⟩
    · obtain ⟨lg, hlg, rfl⟩ := languageConds_mem hlang
      refine ⟨Or.inr (Or.inr ⟨lg, hlg, rfl⟩), hagr1, hagr2, hagr3, ?_⟩
      intro df hdf doc hdoc
      rw [prepare_documents] at hdoc
      obtain ⟨r, _, rfl⟩ := List.mem_map.1 hdoc
      rw [metaKeys_buildDoc]
      have : langKeyCompiler lg = langKeyBuilder lg := hagr1 lg hlg
      rw [this]
      exact mem_template_lang lg _ _ (hdf.2 lg hlg)
  · have h2 := featureConds_mem hfeat
    simp only [List.mem_cons, List.not_mem_nil, or_false] at h2
    have hk : c.1 ∈ alwaysKeys := by
      rcases h2 with rfl | rfl <;> decide
    exact ⟨Or.inl hk, hagr1, hagr2, hagr3, halways hk⟩

/-- A corpus whose single record has no job levels or languages at all. -/
def rowNoVocab : Row := ⟨"X", "u", "d", RawDur.num 10, true, false, [], [], ["K"]⟩

/-- The vocabulary-free corpus for the C4 counterexample. -/
def dfNoVocab : List Row := [rowNoVocab]

/-- Counterexample to C4 as stated: the query `"analyst"` compiles to a filter
on `job_level_analyst`, but against a corpus with no job-level vocabulary no
document's metadata carries that key — the compiler's job-level list is
hard-coded, not derived from the corpus vocabulary, so the filter silently
matches nothing. -/
theorem spec_C4_counterexample :
    filter_conditions "analyst" = [("job_level_analyst", PyV.b true)] ∧
    extract_filters_from_query "analyst" =
      ChromaFilter.dict [("job_level_analyst", PyV.b true)] ∧
    prepare_documents dfNoVocab =
      [buildDoc (allJobLevels dfNoVocab) (allLanguages dfNoVocab) rowNoVocab] ∧
    "job_level_analyst" ∉
      metaKeys (buildDoc (allJobLevels dfNoVocab) (allLanguages dfNoVocab) rowNoVocab) := by
  refine ⟨by decide, by decide, rfl, by decide⟩

/-- A record carrying the compiler's full phrase lists as its vocabulary. -/
def rowVocab : Row :=
  ⟨"V", "u", "d", RawDur.num 10, true, false, compilerJobLevels, compilerLanguages, ["K"]⟩

/-- The full-vocabulary corpus for the C4 witness. -/
def dfVocab : List Row := [rowVocab]

/-- Witness for C4's amended theorem: against a corpus that does contain the
compiler's phrases, the `remote_testing` condition of the query `"remote"`
references a key present in the built document's metadata. -/
theorem spec_C4_witness :
    (("remote_testing" : String), PyV.b true) ∈ filter_conditions "remote" ∧
    "remote_testing" ∈ metaKeys (buildDoc (allJobLevels dfVocab) (allLanguages dfVocab) rowVocab) := by
  have h := spec_C4_amended "remote" ("remote_testing", PyV.b true) (by decide)
  exact ⟨by decide, h.2.2.2.2 dfVocab (by decide) _ (List.mem_map_of_mem _ (by decide))⟩

/-! ## C8: the Metadata Normalizer -/

/-- C8: evaluation of `clean_list_field` on the specified behaviors.  The
claimed list idempotence and never-raises totality break on any list of two
or more elements: `pd.isna` returns an element-wise array there and its use
as a truth value raises `ValueError` before the `isinstance(field, list)`
branch can return the list.  On non-list inputs the function behaves as
claimed: empty/null to `[]`, comma-split with trimming and empty segments
dropped, bracketed literal lists of quoted strings parsed, malformed
bracketed strings falling back to comma-split without raising. -/
theorem spec_C8 :
    clean_list_field (PyField.list ["a", "b"]) =
      Except.error
        "ValueError: The truth value of an array with more than one element is ambiguous" ∧
    clean_list_field (PyField.str "a, b, c") = Except.ok ["a", "b", "c"] ∧
    clean_list_field (PyField.str "") = Except.ok [] ∧
    clean_list_field PyField.null = Except.ok [] ∧
    clean_list_field (PyField.str "[a, b") = Except.ok ["[a", "b"] ∧
    clean_list_field (PyField.list ["a"]) = Except.ok ["a"] ∧
    clean_list_field (PyField.str "['English', 'French']") = Except.ok ["English", "French"] := by
  refine ⟨rfl, rfl, rfl, rfl, rfl, rfl, rfl⟩

/-! ## C9: error handling on the query path -/

/-- The `try`/`except` wrapper converts a retrieval failure into the HTTP-200
error-string response, whatever path handed it the search query. -/
theorem tryPhase_store_error (sq original : String) (is_url : Bool) (url : Option String)
    (mr : Nat) (store : String → ChromaFilter → Except String (List Doc)) (e : String)
    (he : store sq (extract_filters_from_query sq) = Except.error e) :
    tryPhase sq original is_url url mr store =
      Except.ok ⟨"Error searching for assessments: " ++ e, original, is_url, url, []⟩ := by
  have htb : tryBody sq original is_url url mr store = Except.error e := by
    simp only [tryBody, search_assessments, he]
    rfl
  rw [tryPhase, htb]

/-- C9 (amended): on the direct-query path (`is_url = false`) the endpoint
never terminates with an unhandled fault — every failure raised inside the
retrieval/formatting phase is caught and converted into an HTTP-200 response;
in particular a retrieval failure yields `search_query` set to the
human-readable error string and an empty results list.  On the URL path the
same holds for retrieval failures: once the scrape has produced a
non-error-prefixed job description and generation has succeeded, a store
failure is likewise caught and converted to the HTTP-200 error-string
response (carrying the resolved URL).  A text-generation failure, however,
happens before the `try` block and propagates unhandled — see the
counterexample. -/
theorem spec_C9_amended (q : String) (mr : Nat) (scrape : String → String)
    (gen : String → Except String String)
    (store : String → ChromaFilter → Except String (List Doc)) :
    (∃ r : SearchResp, searchEndpoint q false mr scrape gen store = Except.ok r) ∧
    (∀ e, store q (extract_filters_from_query q) = Except.error e →
      searchEndpoint q false mr scrape gen store =
        Except.ok ⟨"Error searching for assessments: " ++ e, q, false, Option.none, []⟩) ∧
    (∀ url sq0 e,
      (if "http://".data.isPrefixOf q.data || "https://".data.isPrefixOf q.data then
        some q
       else extract_url_from_query q) = some url →
      "Error".data.isPrefixOf (scrape url).data = false →
      gen (scrape url) = Except.ok sq0 →
      store (urlQuery q sq0) (extract_filters_from_query (urlQuery q sq0)) = Except.error e →
      searchEndpoint q true mr scrape gen store =
        Except.ok ⟨"Error searching for assessments: " ++ e, q, true, some url, []⟩) := by
  have heq : searchEndpoint q false mr scrape gen store =
      tryPhase q q false Option.none mr store := rfl
  refine ⟨?_, ?_, ?_⟩
  · cases htb : tryBody q q false Option.none mr store with
    | ok r => exact ⟨r, by rw [heq, tryPhase, htb]⟩
    | error e => exact ⟨_, by rw [heq, tryPhase, htb]⟩
  · intro e he
    rw [heq]
    exact tryPhase_store_error q q false Option.none mr store e he
  · intro url sq0 e hurl herr hgen hstore
    rw [searchEndpoint]
    simp only [if_true]
    rw [hurl]
    dsimp only
    rw [herr]
    simp only [Bool.false_eq_true, if_false]
    rw [hgen]
    exact tryPhase_store_error (urlQuery q sq0) q true (some url) mr store e hstore

/-- Witness for C9's amended theorem: a concrete failing store yields the
HTTP-200 error-string response both on the direct-query path and on the URL
path (after a successful scrape and generation). -/
theorem spec_C9_witness :
    searchEndpoint "personality" false 5 (fun _ => "") (fun _ => Except.ok "")
      (fun _ _ => Except.error "index down") =
      Except.ok ⟨"Error searching for assessments: index down", "personality", false,
        Option.none, []⟩ ∧
    searchEndpoint "https://x.example/j" true 5 (fun _ => "A role")
      (fun _ => Except.ok "personality tests") (fun _ _ => Except.error "index down") =
      Except.ok ⟨"Error searching for assessments: index down", "https://x.example/j", true,
        some "https://x.example/j", []⟩ :=
  ⟨(spec_C9_amended "personality" 5 (fun _ => "") (fun _ => Except.ok "")
      (fun _ _ => Except.error "index down")).2.1 "index down" rfl,
   (spec_C9_amended "https://x.example/j" 5 (fun _ => "A role")
      (fun _ => Except.ok "personality tests") (fun _ _ => Except.error "index down")).2.2
      "https://x.example/j" "personality tests" "index down" rfl rfl rfl rfl⟩

/-- Counterexample to C9 as stated: on the URL path, a failure of the text
generator is raised outside the endpoint's `try` block and escapes as an
unhandled fault, not an HTTP-200 empty-result response. -/
theorem spec_C9_counterexample :
    searchEndpoint "https://x.example/j" true 5 (fun _ => "A role")
      (fun _ => Except.error "gen down") (fun _ _ => Except.ok []) =
      Except.error "gen down" := by
  rfl
